import Mathlib

/-!
Verification of the egui_pigeon render-pipeline adapter (`src/lib.rs`).

The development shallowly embeds the frame-translation logic of the crate:

* `calculate_pixel_rect` (lib.rs lines 340-372): the clip-rect to
  device-pixel scissor-rect conversion.  The Rust code computes with `f32`;
  we model the numeric values exactly over `ℚ`.  Every `f32` value is a
  rational number, and all the operations following the initial scaling
  multiplications (`clamp`, `round`, `min`, `max`, the `u32` casts and the
  `u32` arithmetic) are exact on `f32`, so theorems quantified over all
  rational inputs cover every behaviour of the compiled code.
  `f32::round` rounds half away from zero; the `as u32` cast truncates a
  non-negative value (all rounded values here are already clamped into
  `[0, target]`, which fits in `u32`).

* the `prepare` batching loop (lib.rs lines 189-214): vertex/index
  concatenation, index rebasing and draw-group construction.  `u32` index
  arithmetic is modelled on `ℕ` (no input within `u32` range overflows the
  additions performed here).

* the texture-delta loop of `prepare` (lib.rs lines 225-288) over a model
  of the texture cache.  The GPU texture resource is modelled as its pixel
  grid; `parrot`'s `Texture::fill` / `Texture::transfer` and
  `Painter::texture` / `Painter::binding_group` are external collaborators
  and are modelled from the spec where noted.

* the `render` step (lib.rs lines 302-328) as the list of render-pass
  commands it issues.
-/

/-! ### Pixel-rect calculator -/

/-- An egui clip rectangle in UI space (`egui::Rect`: `min`/`max` corners),
modelled over `ℚ`. -/
structure ClipRect where
  minX : ℚ
  minY : ℚ
  maxX : ℚ
  maxY : ℚ

/-- `euclid::Rect<u32, ScreenSpace>`: origin plus size, in device pixels. -/
structure PixelRect where
  x : ℕ
  y : ℕ
  width : ℕ
  height : ℕ
deriving DecidableEq, Repr

/-- Rust's `f32::clamp(lo, hi)`: `if self < lo { lo } else if self > hi { hi }
else { self }`. -/
def rustClamp (v lo hi : ℚ) : ℚ :=
  if v < lo then lo else if v > hi then hi else v

/-- Rust's `f32::round`: round half away from zero. -/
def rustRound (v : ℚ) : ℤ :=
  if 0 ≤ v then ⌊v + 1/2⌋ else ⌈v - 1/2⌉

/-- `f32::round` followed by the `as u32` cast (negative values truncate to
`0`; every value fed to it in `calculate_pixel_rect` lies in `[0, target]`,
within `u32` range, so upper saturation never occurs). -/
def rustRoundU32 (v : ℚ) : ℕ := (rustRound v).toNat

/-- The clip-rect conversion of lib.rs lines 340-372, transcribed
let-for-let from the source. -/
def calculate_pixel_rect (clip_rect : ClipRect) (pixels_per_point : ℚ)
    (target_size : ℕ × ℕ) : PixelRect :=
  -- Transform to physical pixels
  let clip_min_x := pixels_per_point * clip_rect.minX
  let clip_min_y := pixels_per_point * clip_rect.minY
  let clip_max_x := pixels_per_point * clip_rect.maxX
  let clip_max_y := pixels_per_point * clip_rect.maxY
  -- Make sure clip rect can fit within a `u32`.
  let clip_min_x := rustClamp clip_min_x 0 (target_size.1 : ℚ)
  let clip_min_y := rustClamp clip_min_y 0 (target_size.2 : ℚ)
  let clip_max_x := rustClamp clip_max_x clip_min_x (target_size.1 : ℚ)
  let clip_max_y := rustClamp clip_max_y clip_min_y (target_size.2 : ℚ)
  let clip_min_x := rustRoundU32 clip_min_x
  let clip_min_y := rustRoundU32 clip_min_y
  let clip_max_x := rustRoundU32 clip_max_x
  let clip_max_y := rustRoundU32 clip_max_y
  let width := max (clip_max_x - clip_min_x) 1
  let height := max (clip_max_y - clip_min_y) 1
  -- Clip scissor rectangle to target size.
  let x := min clip_min_x target_size.1
  let y := min clip_min_y target_size.2
  let width := min width (target_size.1 - x)
  let height := min height (target_size.2 - y)
  ⟨x, y, width, height⟩

/-- The computation `calculate_pixel_rect` performs on one axis:
`(origin, extent)` from the scaled and clamped `min`/`max` bounds. -/
def axisPixel (ppp mn mx : ℚ) (t : ℕ) : ℕ × ℕ :=
  let c1 := rustClamp (ppp * mn) 0 (t : ℚ)
  let c2 := rustClamp (ppp * mx) c1 (t : ℚ)
  let r1 := rustRoundU32 c1
  let r2 := rustRoundU32 c2
  let w := max (r2 - r1) 1
  let x := min r1 t
  (x, min w (t - x))

theorem calculate_pixel_rect_eq_axis (c : ClipRect) (ppp : ℚ) (sz : ℕ × ℕ) :
    calculate_pixel_rect c ppp sz =
      ⟨(axisPixel ppp c.minX c.maxX sz.1).1, (axisPixel ppp c.minY c.maxY sz.2).1,
       (axisPixel ppp c.minX c.maxX sz.1).2, (axisPixel ppp c.minY c.maxY sz.2).2⟩ :=
  rfl

/-- Reinterpret a device-pixel rect as a clip rectangle (used to feed the
output of `calculate_pixel_rect` back into it). -/
def toClipRect (r : PixelRect) : ClipRect :=
  ⟨(r.x : ℚ), (r.y : ℚ), (r.x : ℚ) + (r.width : ℚ), (r.y : ℚ) + (r.height : ℚ)⟩

/-- `euclid::Rect::is_empty` for an unsigned rect: one of the extents is
zero. -/
def PixelRect.isEmpty (r : PixelRect) : Bool :=
  r.width == 0 || r.height == 0

theorem rustClamp_eq_self {v lo hi : ℚ} (h0 : lo ≤ v) (h1 : v ≤ hi) :
    rustClamp v lo hi = v := by
  unfold rustClamp
  rw [if_neg (not_lt.mpr h0), if_neg (not_lt.mpr h1)]

theorem rustRoundU32_natCast (n : ℕ) : rustRoundU32 (n : ℚ) = n := by
  unfold rustRoundU32 rustRound
  rw [if_pos (by positivity)]
  have h : ⌊(n : ℚ) + 1/2⌋ = (n : ℤ) := by
    refine Int.floor_eq_iff.mpr ⟨?_, ?_⟩
    · push_cast; linarith
    · push_cast; linarith
  rw [h]
  exact Int.toNat_natCast n

theorem rustRoundU32_mono {a b : ℚ} (ha : 0 ≤ a) (hab : a ≤ b) :
    rustRoundU32 a ≤ rustRoundU32 b := by
  unfold rustRoundU32 rustRound
  rw [if_pos ha, if_pos (ha.trans hab)]
  exact Int.toNat_le_toNat (Int.floor_le_floor (by linarith))

theorem rustRoundU32_le_nat {v : ℚ} {t : ℕ} (h0 : 0 ≤ v) (h : v ≤ (t : ℚ)) :
    rustRoundU32 v ≤ t := by
  unfold rustRoundU32 rustRound
  rw [if_pos h0]
  have hf : ⌊v + 1/2⌋ < (t : ℤ) + 1 := by
    refine Int.floor_lt.mpr ?_
    push_cast; linarith
  refine Int.toNat_le.mpr ?_
  omega

theorem axisPixel_fst_le (ppp mn mx : ℚ) (t : ℕ) : (axisPixel ppp mn mx t).1 ≤ t := by
  simp only [axisPixel]
  omega

theorem axisPixel_add_le (ppp mn mx : ℚ) (t : ℕ) :
    (axisPixel ppp mn mx t).1 + (axisPixel ppp mn mx t).2 ≤ t := by
  simp only [axisPixel]
  omega

theorem axisPixel_snd_pos (ppp mn mx : ℚ) (t : ℕ)
    (h : (axisPixel ppp mn mx t).1 < t) : 1 ≤ (axisPixel ppp mn mx t).2 := by
  simp only [axisPixel] at h ⊢
  omega

theorem axisPixel_idem (mn mx : ℚ) (t : ℕ) (h0 : 0 ≤ mn) (h1 : mn ≤ mx)
    (h2 : mx ≤ (t : ℚ)) :
    axisPixel 1 ((axisPixel 1 mn mx t).1 : ℚ)
      (((axisPixel 1 mn mx t).1 : ℚ) + ((axisPixel 1 mn mx t).2 : ℚ)) t
      = axisPixel 1 mn mx t := by
  have e1 : rustClamp (1 * mn) 0 (t : ℚ) = mn := by
    rw [one_mul]; exact rustClamp_eq_self h0 (h1.trans h2)
  have e2 : rustClamp (1 * mx) mn (t : ℚ) = mx := by
    rw [one_mul]; exact rustClamp_eq_self h1 h2
  have hbase : axisPixel 1 mn mx t =
      (min (rustRoundU32 mn) t,
       min (max (rustRoundU32 mx - rustRoundU32 mn) 1) (t - min (rustRoundU32 mn) t)) := by
    simp only [axisPixel, e1, e2]
  set r1 := rustRoundU32 mn with hr1def
  set r2 := rustRoundU32 mx with hr2def
  have hr12 : r1 ≤ r2 := rustRoundU32_mono h0 h1
  have hr2t : r2 ≤ t := rustRoundU32_le_nat (h0.trans h1) h2
  have hr1t : r1 ≤ t := hr12.trans hr2t
  have hx : min r1 t = r1 := min_eq_left hr1t
  have hfst : (axisPixel 1 mn mx t).1 = r1 := by rw [hbase]; exact hx
  set w : ℕ := min (max (r2 - r1) 1) (t - r1) with hwdef
  have hsnd : (axisPixel 1 mn mx t).2 = w := by rw [hbase]; simp only [hx]
  have hwle : r1 + w ≤ t := by omega
  rw [hfst, hsnd, hbase]
  have f1 : rustClamp (1 * (r1 : ℚ)) 0 (t : ℚ) = (r1 : ℚ) := by
    rw [one_mul]
    exact rustClamp_eq_self (by positivity) (by exact_mod_cast hr1t)
  have f2 : rustClamp (1 * ((r1 : ℚ) + (w : ℚ))) (r1 : ℚ) (t : ℚ) = (r1 : ℚ) + (w : ℚ) := by
    rw [one_mul]
    refine rustClamp_eq_self (le_add_of_nonneg_right (by positivity)) ?_
    have h : ((r1 : ℚ) + (w : ℚ)) = ((r1 + w : ℕ) : ℚ) := by push_cast; ring
    rw [h]
    exact_mod_cast hwle
  have g1 : rustRoundU32 ((r1 : ℚ)) = r1 := rustRoundU32_natCast r1
  have g2 : rustRoundU32 ((r1 : ℚ) + (w : ℚ)) = r1 + w := by
    rw [show ((r1 : ℚ) + (w : ℚ)) = ((r1 + w : ℕ) : ℚ) by push_cast; ring]
    exact rustRoundU32_natCast (r1 + w)
  simp only [axisPixel, f1, f2, g1, g2, hx]
  refine Prod.ext rfl ?_
  simp only []
  omega

/-- A clip rectangle lying inside the target bounds (well-ordered corners,
all coordinates within `[0, target]`). -/
def insideBounds (c : ClipRect) (sz : ℕ × ℕ) : Prop :=
  0 ≤ c.minX ∧ c.minX ≤ c.maxX ∧ c.maxX ≤ (sz.1 : ℚ) ∧
  0 ≤ c.minY ∧ c.minY ≤ c.maxY ∧ c.maxY ≤ (sz.2 : ℚ)

/-- C2 (counterexample): for the fully-offscreen clip rect
`(200,200)×(210,210)`, DPI scale `1` and target `(100,100)`,
`calculate_pixel_rect` returns origin `(100,100)` with width `0` and
height `0` — refuting the claim that the returned width and height are
always at least `1`. -/
theorem c2_claim_counterexample :
    calculate_pixel_rect ⟨200, 200, 210, 210⟩ 1 (100, 100) = ⟨100, 100, 0, 0⟩ ∧
    ¬ 1 ≤ (calculate_pixel_rect ⟨200, 200, 210, 210⟩ 1 (100, 100)).width := by
  have h : calculate_pixel_rect ⟨200, 200, 210, 210⟩ 1 (100, 100) = ⟨100, 100, 0, 0⟩ := by
    norm_num [calculate_pixel_rect, rustClamp, rustRoundU32, rustRound]
    decide
  exact ⟨h, by rw [h]; decide⟩

/-- C2 (amended): for every clip rectangle, every non-negative DPI scale and
every target size, the rect returned by `calculate_pixel_rect` has its
origin clamped inside the target bounds and never extends past the target;
its width (resp. height) is at least `1` whenever the origin is strictly
inside the target on that axis (it is `0` exactly when the clamped origin
lands on the target's edge). -/
theorem c2_amended (c : ClipRect) (ppp : ℚ) (hppp : 0 ≤ ppp) (sz : ℕ × ℕ) :
    (calculate_pixel_rect c ppp sz).x ≤ sz.1 ∧
    (calculate_pixel_rect c ppp sz).y ≤ sz.2 ∧
    (calculate_pixel_rect c ppp sz).x + (calculate_pixel_rect c ppp sz).width ≤ sz.1 ∧
    (calculate_pixel_rect c ppp sz).y + (calculate_pixel_rect c ppp sz).height ≤ sz.2 ∧
    ((calculate_pixel_rect c ppp sz).x < sz.1 → 1 ≤ (calculate_pixel_rect c ppp sz).width) ∧
    ((calculate_pixel_rect c ppp sz).y < sz.2 → 1 ≤ (calculate_pixel_rect c ppp sz).height) := by
  rw [calculate_pixel_rect_eq_axis]
  exact ⟨axisPixel_fst_le ppp c.minX c.maxX sz.1,
         axisPixel_fst_le ppp c.minY c.maxY sz.2,
         axisPixel_add_le ppp c.minX c.maxX sz.1,
         axisPixel_add_le ppp c.minY c.maxY sz.2,
         axisPixel_snd_pos ppp c.minX c.maxX sz.1,
         axisPixel_snd_pos ppp c.minY c.maxY sz.2⟩

/-- Witness for `c2_amended` at the spec's offscreen scenario input. -/
theorem c2_amended_witness :
    (0 : ℚ) ≤ 2 ∧
    ((calculate_pixel_rect ⟨-50, -50, 10, 10⟩ 2 (100, 100)).x ≤ 100 ∧
     (calculate_pixel_rect ⟨-50, -50, 10, 10⟩ 2 (100, 100)).y ≤ 100 ∧
     (calculate_pixel_rect ⟨-50, -50, 10, 10⟩ 2 (100, 100)).x +
       (calculate_pixel_rect ⟨-50, -50, 10, 10⟩ 2 (100, 100)).width ≤ 100 ∧
     (calculate_pixel_rect ⟨-50, -50, 10, 10⟩ 2 (100, 100)).y +
       (calculate_pixel_rect ⟨-50, -50, 10, 10⟩ 2 (100, 100)).height ≤ 100 ∧
     ((calculate_pixel_rect ⟨-50, -50, 10, 10⟩ 2 (100, 100)).x < 100 →
       1 ≤ (calculate_pixel_rect ⟨-50, -50, 10, 10⟩ 2 (100, 100)).width) ∧
     ((calculate_pixel_rect ⟨-50, -50, 10, 10⟩ 2 (100, 100)).y < 100 →
       1 ≤ (calculate_pixel_rect ⟨-50, -50, 10, 10⟩ 2 (100, 100)).height)) :=
  ⟨by norm_num, c2_amended ⟨-50, -50, 10, 10⟩ 2 (by norm_num) (100, 100)⟩

/-- C3 (counterexample): the clip rect `(0,0)×(10,10)` lies inside the
target `(100,100)`, but with DPI scale `2` re-applying
`calculate_pixel_rect` to its own output rescales the already-scaled rect:
the first application yields `(0,0,20,20)` and the second `(0,0,40,40)` —
refuting idempotence for arbitrary DPI scales. -/
theorem c3_claim_counterexample :
    insideBounds ⟨0, 0, 10, 10⟩ (100, 100) ∧
    calculate_pixel_rect (toClipRect (calculate_pixel_rect ⟨0, 0, 10, 10⟩ 2 (100, 100)))
        2 (100, 100)
      ≠ calculate_pixel_rect ⟨0, 0, 10, 10⟩ 2 (100, 100) := by
  have h1 : calculate_pixel_rect ⟨0, 0, 10, 10⟩ 2 (100, 100) = ⟨0, 0, 20, 20⟩ := by
    norm_num [calculate_pixel_rect, rustClamp, rustRoundU32, rustRound]
    decide
  have h2 : calculate_pixel_rect (toClipRect ⟨0, 0, 20, 20⟩) 2 (100, 100) = ⟨0, 0, 40, 40⟩ := by
    norm_num [calculate_pixel_rect, toClipRect, rustClamp, rustRoundU32, rustRound]
    decide
  refine ⟨by norm_num [insideBounds], ?_⟩
  rw [h1, h2]
  decide

/-- C3 (amended): for every clip rectangle already inside the target bounds,
`calculate_pixel_rect` at DPI scale `1` is idempotent: feeding the returned
rect back in (same DPI scale `1`, same target size) returns the same rect.
(For DPI scales other than `1` re-application rescales the already-scaled
rect, see the counterexample.) -/
theorem c3_amended (c : ClipRect) (sz : ℕ × ℕ) (h : insideBounds c sz) :
    calculate_pixel_rect (toClipRect (calculate_pixel_rect c 1 sz)) 1 sz
      = calculate_pixel_rect c 1 sz := by
  obtain ⟨hx0, hx1, hx2, hy0, hy1, hy2⟩ := h
  have hX := axisPixel_idem c.minX c.maxX sz.1 hx0 hx1 hx2
  have hY := axisPixel_idem c.minY c.maxY sz.2 hy0 hy1 hy2
  simp only [calculate_pixel_rect_eq_axis, toClipRect]
  rw [hX, hY]

/-- Witness for `c3_amended` on a rect with fractional coordinates inside a
`(100,100)` target. -/
theorem c3_amended_witness :
    insideBounds ⟨3/2, 0, 21/2, 11⟩ (100, 100) ∧
    calculate_pixel_rect (toClipRect (calculate_pixel_rect ⟨3/2, 0, 21/2, 11⟩ 1 (100, 100)))
        1 (100, 100)
      = calculate_pixel_rect ⟨3/2, 0, 21/2, 11⟩ 1 (100, 100) :=
  ⟨by norm_num [insideBounds], c3_amended ⟨3/2, 0, 21/2, 11⟩ (100, 100) (by norm_num [insideBounds])⟩

/-- C8: for clip rect `(-50,-50)×(10,10)`, DPI scale `2` and target
`(100,100)`, `calculate_pixel_rect` returns origin `(0,0)`, width `20`,
height `20`. -/
theorem c8_concrete_rect :
    calculate_pixel_rect ⟨-50, -50, 10, 10⟩ 2 (100, 100) = ⟨0, 0, 20, 20⟩ := by
  norm_num [calculate_pixel_rect, rustClamp, rustRoundU32, rustRound]
  decide

/-! ### Geometry batcher (the mesh loop of `prepare`, lib.rs lines 189-214) -/

/-- Texture identifiers (`egui::TextureId`), abstracted to `ℕ`. -/
abbrev TextureId := ℕ

/-- A packed 32-bit colour (`egui::Color32`), abstracted to `ℕ`. -/
abbrev Color := ℕ

/-- `egui::epaint::Vertex`: 2D position, 2D texture coordinate, packed
colour. -/
structure Vertex where
  pos : ℚ × ℚ
  uv : ℚ × ℚ
  color : Color
deriving DecidableEq

/-- `egui::epaint::Mesh`: indices, vertices and the mesh's texture id. -/
structure Mesh where
  indices : List ℕ
  vertices : List Vertex
  texture_id : TextureId
deriving DecidableEq

/-- `egui::epaint::Primitive`: either a plain mesh or a paint callback. -/
inductive Primitive where
  | mesh (m : Mesh)
  | callback
deriving DecidableEq

/-- `egui::ClippedPrimitive`. -/
structure ClippedPrimitive where
  clip_rect : ClipRect
  primitive : Primitive

/-- A draw group (`Group` in lib.rs): index range `[start, stop)` into the
shared index buffer, texture id and precomputed scissor rect. -/
structure DrawGroup where
  start : ℕ
  stop : ℕ
  tex_id : TextureId
  pixel_rect : PixelRect
deriving DecidableEq, Repr

/-- The accumulated output of the batching loop: the shared vertex buffer,
the shared (rebased) index buffer, the draw groups in input order, and the
number of warnings logged for skipped callback primitives. -/
structure BatchOut where
  vertices : List Vertex
  indices : List ℕ
  groups : List DrawGroup
  warnings : ℕ
deriving DecidableEq

/-- One iteration of the `for primative in context.1` loop of `prepare`:
a callback primitive is skipped (with a logged warning, counted here);
a mesh primitive records `si := indices.len()` and `si2 := vertices.len()`,
appends its indices rebased by `si2`, appends its vertices, and pushes the
group `si .. indices.len()` with the mesh's texture id and the scissor rect
computed by `calculate_pixel_rect`. -/
def batchStep (ppp : ℚ) (sz : ℕ × ℕ) (st : BatchOut) (p : ClippedPrimitive) : BatchOut :=
  match p.primitive with
  | .callback => { st with warnings := st.warnings + 1 }
  | .mesh m =>
    let si := st.indices.length
    let si2 := st.vertices.length
    let pixel_rect := calculate_pixel_rect p.clip_rect ppp sz
    let indices := st.indices ++ m.indices.map (fun i => i + si2)
    let vertices := st.vertices ++ m.vertices
    { vertices := vertices
      indices := indices
      groups := st.groups ++ [⟨si, indices.length, m.texture_id, pixel_rect⟩]
      warnings := st.warnings }

/-- The whole batching loop of `prepare`, starting (as in the source) from
empty vertex/index/group accumulators. -/
def prepareBatch (ppp : ℚ) (sz : ℕ × ℕ) (ps : List ClippedPrimitive) : BatchOut :=
  ps.foldl (batchStep ppp sz) ⟨[], [], [], 0⟩

/-- The mesh primitives of the input, in order, paired with their clip
rects (callback primitives dropped). -/
def meshPrims : List ClippedPrimitive → List (ClipRect × Mesh)
  | [] => []
  | p :: ps =>
    match p.primitive with
    | .mesh m => (p.clip_rect, m) :: meshPrims ps
    | .callback => meshPrims ps

/-- Number of callback primitives in the input. -/
def countCallbacks : List ClippedPrimitive → ℕ
  | [] => 0
  | p :: ps =>
    match p.primitive with
    | .mesh _ => countCallbacks ps
    | .callback => countCallbacks ps + 1

/-- Whether a clipped primitive is a plain mesh. -/
def isMeshPrim (p : ClippedPrimitive) : Bool :=
  match p.primitive with
  | .mesh _ => true
  | .callback => false

/-- Concatenation of the vertex lists of a run of mesh primitives. -/
def flatVerts : List (ClipRect × Mesh) → List Vertex
  | [] => []
  | cm :: ms => cm.2.vertices ++ flatVerts ms

/-- Concatenation of the index lists of a run of mesh primitives, each
rebased by the vertex-buffer length at the time its mesh is appended
(`v` = vertices already in the buffer). -/
def rebaseIdx : List (ClipRect × Mesh) → ℕ → List ℕ
  | [], _ => []
  | cm :: ms, v => cm.2.indices.map (fun i => i + v) ++ rebaseIdx ms (v + cm.2.vertices.length)

/-- The draw groups of a run of mesh primitives, starting at index-buffer
offset `i`. -/
def groupsOf (ppp : ℚ) (sz : ℕ × ℕ) : List (ClipRect × Mesh) → ℕ → List DrawGroup
  | [], _ => []
  | cm :: ms, i =>
    ⟨i, i + cm.2.indices.length, cm.2.texture_id, calculate_pixel_rect cm.1 ppp sz⟩ ::
      groupsOf ppp sz ms (i + cm.2.indices.length)

/-- Total index count of the first `j` meshes of `l`. -/
def idxOff : List (ClipRect × Mesh) → ℕ → ℕ
  | _, 0 => 0
  | [], _ + 1 => 0
  | cm :: ms, j + 1 => cm.2.indices.length + idxOff ms j

/-- Total vertex count of the first `j` meshes of `l` (the vertex-buffer
length at the time mesh `j` is appended). -/
def vertOff : List (ClipRect × Mesh) → ℕ → ℕ
  | _, 0 => 0
  | [], _ + 1 => 0
  | cm :: ms, j + 1 => cm.2.vertices.length + vertOff ms j

/-- Decomposition of the batching loop run from an arbitrary accumulator
state: vertices are appended flattened, indices are appended rebased by the
starting vertex count, groups are appended starting at the current
index-buffer length, and one warning is logged per callback. -/
theorem foldl_batchStep_eq (ppp : ℚ) (sz : ℕ × ℕ) (ps : List ClippedPrimitive)
    (st : BatchOut) :
    ps.foldl (batchStep ppp sz) st =
      ⟨st.vertices ++ flatVerts (meshPrims ps),
       st.indices ++ rebaseIdx (meshPrims ps) st.vertices.length,
       st.groups ++ groupsOf ppp sz (meshPrims ps) st.indices.length,
       st.warnings + countCallbacks ps⟩ := by
  induction ps generalizing st with
  | nil => simp [meshPrims, flatVerts, rebaseIdx, groupsOf, countCallbacks]
  | cons p ps ih =>
    obtain ⟨cr, prim⟩ := p
    cases prim with
    | callback =>
      rw [List.foldl_cons]
      have hstep : batchStep ppp sz st ⟨cr, .callback⟩ =
          { st with warnings := st.warnings + 1 } := rfl
      rw [hstep, ih]
      simp [meshPrims, countCallbacks]
      omega
    | mesh m =>
      rw [List.foldl_cons]
      have hstep : batchStep ppp sz st ⟨cr, .mesh m⟩ =
          { vertices := st.vertices ++ m.vertices,
            indices := st.indices ++ m.indices.map (fun i => i + st.vertices.length),
            groups := st.groups ++ [⟨st.indices.length,
              (st.indices ++ m.indices.map (fun i => i + st.vertices.length)).length,
              m.texture_id, calculate_pixel_rect cr ppp sz⟩],
            warnings := st.warnings } := rfl
      rw [hstep, ih]
      simp [meshPrims, countCallbacks, flatVerts, rebaseIdx, groupsOf,
        List.append_assoc, List.length_append, List.length_map]

/-- The batching loop, closed form. -/
theorem prepareBatch_eq (ppp : ℚ) (sz : ℕ × ℕ) (ps : List ClippedPrimitive) :
    prepareBatch ppp sz ps =
      ⟨flatVerts (meshPrims ps), rebaseIdx (meshPrims ps) 0,
       groupsOf ppp sz (meshPrims ps) 0, countCallbacks ps⟩ := by
  unfold prepareBatch
  rw [foldl_batchStep_eq]
  simp

/-- Default element used with `List.getD` over mesh-primitive lists. -/
def dMeshPrim : ClipRect × Mesh := (⟨0, 0, 0, 0⟩, ⟨[], [], 0⟩)

/-- Default element used with `List.getD` over draw-group lists. -/
def dGroup : DrawGroup := ⟨0, 0, 0, ⟨0, 0, 0, 0⟩⟩

theorem groupsOf_length (ppp : ℚ) (sz : ℕ × ℕ) (l : List (ClipRect × Mesh)) :
    ∀ i, (groupsOf ppp sz l i).length = l.length := by
  induction l with
  | nil => intro i; rfl
  | cons cm ms ih => intro i; simp [groupsOf, ih]

theorem idxOff_succ_cons (cm : ClipRect × Mesh) (ms : List (ClipRect × Mesh)) (j : ℕ) :
    idxOff (cm :: ms) (j + 1) = cm.2.indices.length + idxOff ms j := rfl

theorem vertOff_succ_cons (cm : ClipRect × Mesh) (ms : List (ClipRect × Mesh)) (j : ℕ) :
    vertOff (cm :: ms) (j + 1) = cm.2.vertices.length + vertOff ms j := rfl

theorem groupsOf_getD (ppp : ℚ) (sz : ℕ × ℕ) (l : List (ClipRect × Mesh)) :
    ∀ (i j : ℕ), j < l.length →
      (groupsOf ppp sz l i).getD j dGroup =
        ⟨i + idxOff l j, i + idxOff l (j + 1), (l.getD j dMeshPrim).2.texture_id,
         calculate_pixel_rect (l.getD j dMeshPrim).1 ppp sz⟩ := by
  induction l with
  | nil => intro i j h; simp at h
  | cons cm ms ih =>
    intro i j h
    cases j with
    | zero =>
      simp [groupsOf, idxOff]
    | succ j =>
      have h' : j < ms.length := by simpa using h
      simp only [groupsOf, List.getD_cons_succ]
      rw [ih (i + cm.2.indices.length) j h']
      simp [idxOff_succ_cons, Nat.add_assoc]

theorem rebaseIdx_length (l : List (ClipRect × Mesh)) :
    ∀ v, (rebaseIdx l v).length = idxOff l l.length := by
  induction l with
  | nil => intro v; rfl
  | cons cm ms ih => intro v; simp [rebaseIdx, ih, idxOff_succ_cons]

theorem flatVerts_length (l : List (ClipRect × Mesh)) :
    (flatVerts l).length = vertOff l l.length := by
  induction l with
  | nil => rfl
  | cons cm ms ih => simp [flatVerts, ih, vertOff_succ_cons]

theorem idxOff_succ (l : List (ClipRect × Mesh)) :
    ∀ j, j < l.length →
      idxOff l (j + 1) = idxOff l j + (l.getD j dMeshPrim).2.indices.length := by
  induction l with
  | nil => intro j h; simp at h
  | cons cm ms ih =>
    intro j h
    cases j with
    | zero => simp [idxOff_succ_cons, idxOff]
    | succ j =>
      have h' : j < ms.length := by simpa using h
      simp only [idxOff_succ_cons, List.getD_cons_succ, ih j h']
      omega

theorem vertOff_succ (l : List (ClipRect × Mesh)) :
    ∀ j, j < l.length →
      vertOff l (j + 1) = vertOff l j + (l.getD j dMeshPrim).2.vertices.length := by
  induction l with
  | nil => intro j h; simp at h
  | cons cm ms ih =>
    intro j h
    cases j with
    | zero => simp [vertOff_succ_cons, vertOff]
    | succ j =>
      have h' : j < ms.length := by simpa using h
      simp only [vertOff_succ_cons, List.getD_cons_succ, ih j h']
      omega

theorem vertOff_mono (l : List (ClipRect × Mesh)) :
    ∀ {j k : ℕ}, j ≤ k → vertOff l j ≤ vertOff l k := by
  induction l with
  | nil =>
    intro j k _
    cases j <;> cases k <;> simp [vertOff]
  | cons cm ms ih =>
    intro j k h
    cases j with
    | zero =>
      rw [show vertOff (cm :: ms) 0 = 0 from rfl]
      exact Nat.zero_le _
    | succ j =>
      cases k with
      | zero => omega
      | succ k =>
        rw [vertOff_succ_cons, vertOff_succ_cons]
        exact Nat.add_le_add_left (ih (Nat.succ_le_succ_iff.mp h)) _

theorem rebaseIdx_slice (l : List (ClipRect × Mesh)) :
    ∀ (v j : ℕ), j < l.length →
      ((rebaseIdx l v).drop (idxOff l j)).take ((l.getD j dMeshPrim).2.indices.length)
        = (l.getD j dMeshPrim).2.indices.map (fun i => i + (v + vertOff l j)) := by
  induction l with
  | nil => intro v j h; simp at h
  | cons cm ms ih =>
    intro v j h
    cases j with
    | zero =>
      simp only [rebaseIdx, List.getD_cons_zero,
        show idxOff (cm :: ms) 0 = 0 from rfl, List.drop_zero,
        show vertOff (cm :: ms) 0 = 0 from rfl, Nat.add_zero]
      exact List.take_left' (by simp)
    | succ j =>
      have h' : j < ms.length := by simpa using h
      simp only [rebaseIdx, List.getD_cons_succ, idxOff_succ_cons, vertOff_succ_cons]
      rw [show cm.2.indices.length + idxOff ms j
            = (cm.2.indices.map (fun i => i + v)).length + idxOff ms j by simp]
      rw [List.drop_append, ih (v + cm.2.vertices.length) j h']
      simp [Nat.add_assoc]

theorem meshPrims_filter (ps : List ClippedPrimitive) :
    meshPrims (ps.filter isMeshPrim) = meshPrims ps := by
  induction ps with
  | nil => rfl
  | cons p ps ih =>
    obtain ⟨cr, prim⟩ := p
    cases prim with
    | mesh m => simp [List.filter_cons, isMeshPrim, meshPrims, ih]
    | callback => simp [List.filter_cons, isMeshPrim, meshPrims, ih]

theorem meshPrims_length (ps : List ClippedPrimitive) :
    (meshPrims ps).length = (ps.filter isMeshPrim).length := by
  induction ps with
  | nil => rfl
  | cons p ps ih =>
    obtain ⟨cr, prim⟩ := p
    cases prim with
    | mesh m => simp [List.filter_cons, isMeshPrim, meshPrims, ih]
    | callback => simp [List.filter_cons, isMeshPrim, meshPrims, ih]

theorem countCallbacks_eq (ps : List ClippedPrimitive) :
    countCallbacks ps = (ps.filter (fun p => !isMeshPrim p)).length := by
  induction ps with
  | nil => rfl
  | cons p ps ih =>
    obtain ⟨cr, prim⟩ := p
    cases prim with
    | mesh m => simp [List.filter_cons, isMeshPrim, countCallbacks, ih]
    | callback => simp [List.filter_cons, isMeshPrim, countCallbacks, ih]

/-- C7: the batching loop of `prepare` produces exactly one draw group per
mesh-type primitive; every callback primitive is skipped with one logged
warning and contributes no group, no vertices and no indices (the output is
the same as for the input with the callbacks filtered out). -/
theorem c7_group_count (ppp : ℚ) (sz : ℕ × ℕ) (ps : List ClippedPrimitive) :
    (prepareBatch ppp sz ps).groups.length = (ps.filter isMeshPrim).length ∧
    (prepareBatch ppp sz ps).warnings = (ps.filter (fun p => !isMeshPrim p)).length ∧
    (prepareBatch ppp sz ps).vertices = (prepareBatch ppp sz (ps.filter isMeshPrim)).vertices ∧
    (prepareBatch ppp sz ps).indices = (prepareBatch ppp sz (ps.filter isMeshPrim)).indices ∧
    (prepareBatch ppp sz ps).groups = (prepareBatch ppp sz (ps.filter isMeshPrim)).groups := by
  have hm := meshPrims_filter ps
  simp only [prepareBatch_eq]
  exact ⟨by rw [groupsOf_length]; exact meshPrims_length ps,
         countCallbacks_eq ps,
         by rw [hm],
         by rw [hm],
         by rw [hm]⟩

/-- C10: the group index ranges partition the shared index buffer
contiguously and in order: each group starts where the previous one ends,
the first group starts at `0`, and the last group ends at the index-buffer
length. -/
theorem c10_contiguous_ranges (ppp : ℚ) (sz : ℕ × ℕ) (ps : List ClippedPrimitive) :
    (∀ j, j + 1 < (prepareBatch ppp sz ps).groups.length →
      ((prepareBatch ppp sz ps).groups.getD (j + 1) dGroup).start
        = ((prepareBatch ppp sz ps).groups.getD j dGroup).stop) ∧
    ((prepareBatch ppp sz ps).groups ≠ [] →
      ((prepareBatch ppp sz ps).groups.getD 0 dGroup).start = 0 ∧
      ((prepareBatch ppp sz ps).groups.getD
          ((prepareBatch ppp sz ps).groups.length - 1) dGroup).stop
        = (prepareBatch ppp sz ps).indices.length) := by
  simp only [prepareBatch_eq]
  constructor
  · intro j h
    rw [groupsOf_length] at h
    rw [groupsOf_getD ppp sz _ 0 (j + 1) h, groupsOf_getD ppp sz _ 0 j (by omega)]
  · intro hne
    have h0 : 0 < (meshPrims ps).length := by
      rw [← groupsOf_length ppp sz (meshPrims ps) 0]
      exact List.length_pos.mpr hne
    constructor
    · rw [groupsOf_getD ppp sz _ 0 0 h0]
      show 0 + idxOff _ 0 = 0
      simp [idxOff]
    · have hlast : (meshPrims ps).length - 1 < (meshPrims ps).length := by omega
      rw [groupsOf_length, groupsOf_getD ppp sz _ 0 _ hlast]
      show 0 + idxOff _ ((meshPrims ps).length - 1 + 1) = (rebaseIdx (meshPrims ps) 0).length
      rw [show (meshPrims ps).length - 1 + 1 = (meshPrims ps).length by omega,
        rebaseIdx_length]
      omega

/-- C4: for every frame and every group `j`, the group's index range has
the length of mesh `j`'s index list; the slice of the shared index buffer
covered by the range is mesh `j`'s index list, each value shifted by the
vertex-buffer length at the time that mesh was appended; and when the
meshes' own indices are in bounds, every stored index falls inside mesh
`j`'s own vertex slice of the shared vertex buffer and inside the buffer. -/
theorem c4_index_rebasing (ppp : ℚ) (sz : ℕ × ℕ) (ps : List ClippedPrimitive)
    (j : ℕ) (hj : j < (meshPrims ps).length) :
    ((prepareBatch ppp sz ps).groups.getD j dGroup).stop
        = ((prepareBatch ppp sz ps).groups.getD j dGroup).start
          + ((meshPrims ps).getD j dMeshPrim).2.indices.length ∧
    (((prepareBatch ppp sz ps).indices.drop
          (((prepareBatch ppp sz ps).groups.getD j dGroup).start)).take
        (((meshPrims ps).getD j dMeshPrim).2.indices.length)
      = ((meshPrims ps).getD j dMeshPrim).2.indices.map
          (fun i => i + vertOff (meshPrims ps) j)) ∧
    ((∀ cm ∈ meshPrims ps, ∀ i ∈ cm.2.indices, i < cm.2.vertices.length) →
      ∀ x ∈ ((meshPrims ps).getD j dMeshPrim).2.indices.map
          (fun i => i + vertOff (meshPrims ps) j),
        vertOff (meshPrims ps) j ≤ x ∧
        x < vertOff (meshPrims ps) j + ((meshPrims ps).getD j dMeshPrim).2.vertices.length ∧
        x < (prepareBatch ppp sz ps).vertices.length) := by
  simp only [prepareBatch_eq]
  rw [groupsOf_getD ppp sz _ 0 j hj]
  refine ⟨?_, ?_, ?_⟩
  · show 0 + idxOff _ (j + 1) = 0 + idxOff _ j + _
    rw [idxOff_succ _ j hj]
    omega
  · show ((rebaseIdx _ 0).drop (0 + idxOff _ j)).take _ = _
    rw [Nat.zero_add, rebaseIdx_slice _ 0 j hj]
    simp [Nat.zero_add]
  · intro hin x hx
    rw [List.mem_map] at hx
    obtain ⟨i, hi, rfl⟩ := hx
    have hmem : (meshPrims ps).getD j dMeshPrim ∈ meshPrims ps := by
      rw [List.getD_eq_getElem _ _ hj]
      exact List.getElem_mem hj
    have hb := hin _ hmem i hi
    refine ⟨Nat.le_add_left _ _, by omega, ?_⟩
    have h1 : i + vertOff (meshPrims ps) j < vertOff (meshPrims ps) (j + 1) := by
      rw [vertOff_succ _ j hj]
      omega
    have h2 : vertOff (meshPrims ps) (j + 1) ≤ vertOff (meshPrims ps) (meshPrims ps).length :=
      vertOff_mono _ hj
    rw [flatVerts_length]
    omega

/-- Sample vertices for concrete frames. -/
def vA : Vertex := ⟨(0, 0), (0, 0), 0⟩

def vB : Vertex := ⟨(1, 0), (0, 0), 0⟩

def vC : Vertex := ⟨(0, 1), (0, 0), 0⟩

def vD : Vertex := ⟨(1, 1), (0, 0), 0⟩

/-- A triangle mesh over texture `3`. -/
def meshOne : Mesh := ⟨[0, 1, 2], [vA, vB, vC], 3⟩

/-- A two-triangle quad mesh over texture `4`. -/
def meshTwo : Mesh := ⟨[0, 1, 2, 2, 1, 3], [vA, vB, vC, vD], 4⟩

/-- A sample frame: mesh, skipped callback, mesh. -/
def psSample : List ClippedPrimitive :=
  [⟨⟨0, 0, 10, 10⟩, .mesh meshOne⟩, ⟨⟨0, 0, 10, 10⟩, .callback⟩,
   ⟨⟨5, 5, 50, 50⟩, .mesh meshTwo⟩]

/-- Witness for `c4_index_rebasing` on the second mesh of `psSample`
(vertex offset `3`), including the bound for the stored index `3`. -/
theorem c4_index_rebasing_witness :
    ((prepareBatch 1 (100, 100) psSample).groups.getD 1 dGroup).stop
        = ((prepareBatch 1 (100, 100) psSample).groups.getD 1 dGroup).start
          + ((meshPrims psSample).getD 1 dMeshPrim).2.indices.length ∧
    (((prepareBatch 1 (100, 100) psSample).indices.drop
          (((prepareBatch 1 (100, 100) psSample).groups.getD 1 dGroup).start)).take
        (((meshPrims psSample).getD 1 dMeshPrim).2.indices.length)
      = ((meshPrims psSample).getD 1 dMeshPrim).2.indices.map
          (fun i => i + vertOff (meshPrims psSample) 1)) ∧
    (vertOff (meshPrims psSample) 1 ≤ 3 ∧
     3 < vertOff (meshPrims psSample) 1
       + ((meshPrims psSample).getD 1 dMeshPrim).2.vertices.length ∧
     3 < (prepareBatch 1 (100, 100) psSample).vertices.length) :=
  ⟨(c4_index_rebasing 1 (100, 100) psSample 1 (by decide)).1,
   (c4_index_rebasing 1 (100, 100) psSample 1 (by decide)).2.1,
   (c4_index_rebasing 1 (100, 100) psSample 1 (by decide)).2.2 (by decide) 3 (by decide)⟩

/-- Witness for `c10_contiguous_ranges` on `psSample`: the second group
starts where the first ends, the first starts at `0`, and the last ends at
the index-buffer length. -/
theorem c10_contiguous_ranges_witness :
    ((prepareBatch 1 (100, 100) psSample).groups.getD (0 + 1) dGroup).start
      = ((prepareBatch 1 (100, 100) psSample).groups.getD 0 dGroup).stop ∧
    ((prepareBatch 1 (100, 100) psSample).groups.getD 0 dGroup).start = 0 ∧
    ((prepareBatch 1 (100, 100) psSample).groups.getD
        ((prepareBatch 1 (100, 100) psSample).groups.length - 1) dGroup).stop
      = (prepareBatch 1 (100, 100) psSample).indices.length :=
  ⟨(c10_contiguous_ranges 1 (100, 100) psSample).1 0 (by decide),
   ((c10_contiguous_ranges 1 (100, 100) psSample).2 (by decide)).1,
   ((c10_contiguous_ranges 1 (100, 100) psSample).2 (by decide)).2⟩

/-! ### Texture cache (the delta loop of `prepare`, lib.rs lines 225-288) -/

/-- `wgpu::FilterMode` values used by the shared sampler. -/
inductive FilterMode where
  | nearest
  | linear
deriving DecidableEq

/-- The sampler resource (`parrot::Sampler`), identified by its filter
configuration. -/
structure Sampler where
  magFilter : FilterMode
  minFilter : FilterMode
deriving DecidableEq

/-- The shared sampler created in `setup`:
`paint.sampler(FilterMode::Nearest, FilterMode::Linear, ..)`. -/
def sharedSampler : Sampler := ⟨.nearest, .linear⟩

/-- `egui::ColorImage`: dimensions plus pixel data. -/
structure ColorImage where
  width : ℕ
  height : ℕ
  pixels : List Color
deriving DecidableEq

/-- `egui::FontImage`: dimensions plus coverage data.  The conversion
`srgba_pixels(1.0)` is egui-internal (external to this crate); its output
colour list is modelled as the stored `srgba` data. -/
structure FontImage where
  width : ℕ
  height : ℕ
  srgba : List Color
deriving DecidableEq

/-- `egui::ImageData`. -/
inductive ImageData where
  | color (c : ColorImage)
  | font (f : FontImage)
deriving DecidableEq

def ImageData.width : ImageData → ℕ
  | .color c => c.width
  | .font f => f.width

def ImageData.height : ImageData → ℕ
  | .color c => c.height
  | .font f => f.height

/-- `egui::epaint::ImageDelta`: the image data plus an optional update
position (`None` = full update / creation, `Some pos` = partial update). -/
structure ImageDelta where
  image : ImageData
  pos : Option (ℕ × ℕ)
deriving DecidableEq

/-- The `set_data` closure of `prepare`: extract the colour data from a
delta (`ColorImage` pixels, or the font image's converted srgba pixels). -/
def set_data (d : ImageDelta) : List Color :=
  match d.image with
  | .color c => c.pixels
  | .font f => f.srgba

/-- A GPU texture resource (`parrot::Texture`), modelled as its size, its
debug label (the texture id it was created for) and its pixel grid in
row-major order. -/
structure GpuTexture where
  width : ℕ
  height : ℕ
  label : TextureId
  pixels : List Color
deriving DecidableEq

/-- A binding descriptor (`parrot::BindingGroup`) pairing a texture (by its
label) with a sampler, as created by
`paint.binding_group(&[&tex, &self.sampler], ..)`. -/
structure BindingGroup where
  texLabel : TextureId
  sampler : Sampler
deriving DecidableEq

/-- The texture cache `egui_texture : HashMap<TextureId, (Texture,
BindingGroup)>`, modelled as an association list with unique keys. -/
abbrev Cache := List (TextureId × GpuTexture × BindingGroup)

/-- `HashMap::get`/`get_mut`: the entry stored under `id`, if any. -/
def lookupTex (cache : Cache) (id : TextureId) : Option (GpuTexture × BindingGroup) :=
  (cache.find? (fun e => e.1 == id)).map (fun e => e.2)

/-- In-place mutation of the entry stored under `id` (the effect of writing
through `HashMap::get_mut`): every entry keeps its key, and the entry keyed
`id` gets its value replaced. -/
def updateTexEntry : Cache → TextureId →
    (GpuTexture × BindingGroup → GpuTexture × BindingGroup) → Cache
  | [], _, _ => []
  | e :: c, id, f =>
    (if e.1 == id then (e.1, f e.2) else e) :: updateTexEntry c id f

/-- Number of entries stored under `id`. -/
def countKey (cache : Cache) (id : TextureId) : ℕ :=
  (cache.filter (fun e => e.1 == id)).length

/-- The pixel of a texture at device coordinates `(x, y)` (row-major). -/
def pixelAt (t : GpuTexture) (x y : ℕ) : Color :=
  t.pixels.getD (y * t.width + x) 0

/-- Modelled from the spec: `Painter::texture` (external `parrot` call)
allocates a new `w × h` BGRA texture.  Its initial contents are
unspecified; they are modelled as zeros (the only caller fills the texture
immediately afterwards). -/
def createTex (id : TextureId) (w h : ℕ) : GpuTexture :=
  ⟨w, h, id, List.replicate (w * h) 0⟩

/-- Modelled from the spec: `Texture::fill` (external `parrot` call) fills
the entire texture with the given pixel data. -/
def fillTex (t : GpuTexture) (data : List Color) : GpuTexture :=
  { t with pixels := data }

/-- Modelled from the spec: `Texture::transfer` (external `parrot` call)
writes `data` only into the sub-rectangle with origin `(px, py)` and size
`w × h`, leaving every pixel outside it untouched. -/
def transferTex (t : GpuTexture) (data : List Color) (px py w h : ℕ) : GpuTexture :=
  { t with pixels := (List.range t.pixels.length).map (fun n =>
      if px ≤ n % t.width ∧ n % t.width < px + w ∧ py ≤ n / t.width ∧ n / t.width < py + h then
        data.getD ((n / t.width - py) * w + (n % t.width - px)) (t.pixels.getD n 0)
      else
        t.pixels.getD n 0) }

/-- One iteration of the `for set in context.0.set` loop of `prepare`:
if the id is cached, either transfer the sub-rectangle (when a position is
given) or fill the whole texture; otherwise create a texture sized to the
image, create its binding descriptor with the shared sampler, fill it, and
insert both into the cache. -/
def processDelta (s : Sampler) (cache : Cache) (d : TextureId × ImageDelta) : Cache :=
  match lookupTex cache d.1 with
  | some _ =>
    match d.2.pos with
    | some p =>
      updateTexEntry cache d.1 (fun tb =>
        (transferTex tb.1 (set_data d.2) p.1 p.2 d.2.image.width d.2.image.height, tb.2))
    | none =>
      updateTexEntry cache d.1 (fun tb => (fillTex tb.1 (set_data d.2), tb.2))
  | none =>
    let tex := createTex d.1 d.2.image.width d.2.image.height
    cache ++ [(d.1, fillTex tex (set_data d.2), (⟨tex.label, s⟩ : BindingGroup))]

/-- The whole texture-delta loop of `prepare`. -/
def processDeltas (s : Sampler) (cache : Cache) (sets : List (TextureId × ImageDelta)) : Cache :=
  sets.foldl (processDelta s) cache

theorem lookupTex_none_iff (c : Cache) (id : TextureId) :
    lookupTex c id = none ↔ ∀ e ∈ c, e.1 ≠ id := by
  unfold lookupTex
  rw [Option.map_eq_none', List.find?_eq_none]
  simp

theorem lookupTex_append_single (c : Cache) (id : TextureId)
    (e : GpuTexture × BindingGroup) (h : lookupTex c id = none) :
    lookupTex (c ++ [(id, e)]) id = some e := by
  have h' : c.find? (fun e => e.1 == id) = none := by
    rw [List.find?_eq_none]
    intro x hx
    simpa using (lookupTex_none_iff c id).mp h x hx
  unfold lookupTex
  rw [List.find?_append, h']
  simp [List.find?]

theorem lookupTex_append_ne (c : Cache) (id id2 : TextureId)
    (e : GpuTexture × BindingGroup) (h : id2 ≠ id) :
    lookupTex (c ++ [(id, e)]) id2 = lookupTex c id2 := by
  unfold lookupTex
  rw [List.find?_append]
  have hb : (id == id2) = false := by simpa using Ne.symm h
  have h1 : List.find? (fun e => e.1 == id2) [(id, e)] = none := by
    simp [List.find?, hb]
  rw [h1, Option.or_none]

theorem lookupTex_update_self (c : Cache) (id : TextureId)
    (f : GpuTexture × BindingGroup → GpuTexture × BindingGroup) :
    lookupTex (updateTexEntry c id f) id = (lookupTex c id).map f := by
  induction c with
  | nil => rfl
  | cons e c ih =>
    show lookupTex ((if e.1 == id then (e.1, f e.2) else e) :: updateTexEntry c id f) id = _
    cases heb : (e.1 == id) with
    | false =>
      simp only [heb, Bool.false_eq_true, if_false, lookupTex, List.find?_cons, heb]
      exact ih
    | true =>
      simp only [heb, if_true, lookupTex, List.find?_cons, heb]
      simp

theorem lookupTex_update_ne (c : Cache) (id id2 : TextureId)
    (f : GpuTexture × BindingGroup → GpuTexture × BindingGroup) (h : id2 ≠ id) :
    lookupTex (updateTexEntry c id f) id2 = lookupTex c id2 := by
  induction c with
  | nil => rfl
  | cons e c ih =>
    show lookupTex ((if e.1 == id then (e.1, f e.2) else e) :: updateTexEntry c id f) id2 = _
    cases heb : (e.1 == id) with
    | false =>
      simp only [heb, Bool.false_eq_true, if_false, lookupTex, List.find?_cons]
      cases heb2 : (e.1 == id2) with
      | false => exact ih
      | true => rfl
    | true =>
      have he : e.1 = id := by simpa using heb
      have hne : (e.1 == id2) = false := by simp [he, Ne.symm h]
      simp only [heb, if_true, lookupTex, List.find?_cons, hne]
      exact ih

theorem countKey_update (c : Cache) (id id2 : TextureId)
    (f : GpuTexture × BindingGroup → GpuTexture × BindingGroup) :
    countKey (updateTexEntry c id f) id2 = countKey c id2 := by
  induction c with
  | nil => rfl
  | cons e c ih =>
    show countKey ((if e.1 == id then (e.1, f e.2) else e) :: updateTexEntry c id f) id2 = _
    cases heb : (e.1 == id) with
    | false =>
      simp only [heb, Bool.false_eq_true, if_false, countKey, List.filter_cons]
      cases heb2 : (e.1 == id2) with
      | false => exact ih
      | true => simpa using ih
    | true =>
      simp only [heb, if_true, countKey, List.filter_cons]
      cases heb2 : (e.1 == id2) with
      | false => exact ih
      | true => simpa using ih

theorem countKey_append (c l : Cache) (id : TextureId) :
    countKey (c ++ l) id = countKey c id + countKey l id := by
  simp [countKey, List.filter_append]

theorem countKey_zero_of_none (c : Cache) (id : TextureId)
    (h : lookupTex c id = none) : countKey c id = 0 := by
  unfold countKey
  rw [List.filter_eq_nil_iff.mpr, List.length_nil]
  intro e he
  simpa using (lookupTex_none_iff c id).mp h e he

theorem transferTex_outside (t : GpuTexture) (data : List Color) (px py w h x y : ℕ)
    (hx : x < t.width)
    (hout : ¬(px ≤ x ∧ x < px + w ∧ py ≤ y ∧ y < py + h)) :
    pixelAt (transferTex t data px py w h) x y = pixelAt t x y := by
  unfold pixelAt transferTex
  simp only []
  by_cases hn : y * t.width + x < t.pixels.length
  · rw [List.getD_eq_getElem _ _ (by simpa using hn)]
    rw [List.getElem_map, List.getElem_range]
    have hw : 0 < t.width := by omega
    have hmod : (y * t.width + x) % t.width = x := by
      rw [Nat.mul_comm y t.width, Nat.mul_add_mod, Nat.mod_eq_of_lt hx]
    have hdiv : (y * t.width + x) / t.width = y := by
      rw [Nat.mul_comm y t.width, Nat.mul_add_div hw, Nat.div_eq_of_lt hx, Nat.add_zero]
    rw [hmod, hdiv, if_neg hout]
  · rw [List.getD_eq_default _ _ (by simpa using hn),
      List.getD_eq_default _ _ (by omega)]

/-- C5: behaviour of one texture delta in `prepare`: if the id is absent, a
new texture sized to the full image is allocated, a binding descriptor
pairing it with the shared sampler is created, both are stored, and the
texture is filled entirely with the image's data; if the id is present and
an update position is given, only that sub-rectangle is written (dimensions
preserved, pixels outside the region untouched); if the id is present and
no position is given, the entire texture is overwritten with the image's
data.  Other cache entries are never touched. -/
theorem c5_texture_delta_cases (s : Sampler) (cache : Cache) (id : TextureId)
    (d : ImageDelta) :
    (lookupTex cache id = none →
      lookupTex (processDelta s cache (id, d)) id
          = some (⟨d.image.width, d.image.height, id, set_data d⟩, ⟨id, s⟩) ∧
      ∀ id2, id2 ≠ id →
        lookupTex (processDelta s cache (id, d)) id2 = lookupTex cache id2) ∧
    (∀ tb p, lookupTex cache id = some tb → d.pos = some p →
      lookupTex (processDelta s cache (id, d)) id
          = some (transferTex tb.1 (set_data d) p.1 p.2 d.image.width d.image.height, tb.2) ∧
      (transferTex tb.1 (set_data d) p.1 p.2 d.image.width d.image.height).width
          = tb.1.width ∧
      (transferTex tb.1 (set_data d) p.1 p.2 d.image.width d.image.height).height
          = tb.1.height ∧
      (∀ x y, x < tb.1.width →
        ¬(p.1 ≤ x ∧ x < p.1 + d.image.width ∧ p.2 ≤ y ∧ y < p.2 + d.image.height) →
        pixelAt (transferTex tb.1 (set_data d) p.1 p.2 d.image.width d.image.height) x y
          = pixelAt tb.1 x y) ∧
      ∀ id2, id2 ≠ id →
        lookupTex (processDelta s cache (id, d)) id2 = lookupTex cache id2) ∧
    (∀ tb, lookupTex cache id = some tb → d.pos = none →
      lookupTex (processDelta s cache (id, d)) id
          = some (fillTex tb.1 (set_data d), tb.2) ∧
      (fillTex tb.1 (set_data d)).pixels = set_data d ∧
      ∀ id2, id2 ≠ id →
        lookupTex (processDelta s cache (id, d)) id2 = lookupTex cache id2) := by
  refine ⟨?_, ?_, ?_⟩
  · intro h
    have h1 : processDelta s cache (id, d)
        = cache ++ [(id, fillTex (createTex id d.image.width d.image.height) (set_data d),
            (⟨id, s⟩ : BindingGroup))] := by
      simp [processDelta, h, createTex]
    refine ⟨?_, ?_⟩
    · rw [h1, lookupTex_append_single _ _ _ h]
      simp [fillTex, createTex]
    · intro id2 hne
      rw [h1, lookupTex_append_ne _ _ _ _ hne]
  · intro tb p htb hpos
    have h1 : processDelta s cache (id, d)
        = updateTexEntry cache id (fun tb =>
            (transferTex tb.1 (set_data d) p.1 p.2 d.image.width d.image.height, tb.2)) := by
      simp [processDelta, htb, hpos]
    refine ⟨?_, rfl, rfl, ?_, ?_⟩
    · rw [h1, lookupTex_update_self, htb]
      rfl
    · intro x y hx hout
      exact transferTex_outside tb.1 (set_data d) p.1 p.2 _ _ x y hx hout
    · intro id2 hne
      rw [h1, lookupTex_update_ne _ _ _ _ hne]
  · intro tb htb hpos
    have h1 : processDelta s cache (id, d)
        = updateTexEntry cache id (fun tb => (fillTex tb.1 (set_data d), tb.2)) := by
      simp [processDelta, htb, hpos]
    refine ⟨?_, rfl, ?_⟩
    · rw [h1, lookupTex_update_self, htb]
      rfl
    · intro id2 hne
      rw [h1, lookupTex_update_ne _ _ _ _ hne]

/-- C6: create (full delta for absent `T`), then a region update, then a
full update, leave exactly one cache entry for `T`; its texture keeps the
creation dimensions and its contents are exactly the final full update's
data (the earlier region update is fully superseded). -/
theorem c6_update_sequence (s : Sampler) (c0 : Cache) (T : TextureId)
    (img1 img2 img3 : ImageData) (r : ℕ × ℕ)
    (h : lookupTex c0 T = none) :
    countKey (processDeltas s c0
        [(T, ⟨img1, none⟩), (T, ⟨img2, some r⟩), (T, ⟨img3, none⟩)]) T = 1 ∧
    lookupTex (processDeltas s c0
        [(T, ⟨img1, none⟩), (T, ⟨img2, some r⟩), (T, ⟨img3, none⟩)]) T
      = some (⟨img1.width, img1.height, T, set_data ⟨img3, none⟩⟩, ⟨T, s⟩) := by
  have h1 : processDelta s c0 (T, (⟨img1, none⟩ : ImageDelta))
      = c0 ++ [(T, fillTex (createTex T img1.width img1.height) (set_data ⟨img1, none⟩),
          (⟨T, s⟩ : BindingGroup))] := by
    simp [processDelta, h, createTex]
  set e1 : GpuTexture × BindingGroup :=
    (fillTex (createTex T img1.width img1.height) (set_data ⟨img1, none⟩),
     (⟨T, s⟩ : BindingGroup)) with he1
  have hl1 : lookupTex (c0 ++ [(T, e1)]) T = some e1 := lookupTex_append_single _ _ _ h
  set f2 : GpuTexture × BindingGroup → GpuTexture × BindingGroup := fun tb =>
      (transferTex tb.1 (set_data ⟨img2, some r⟩) r.1 r.2 img2.width img2.height, tb.2)
    with hf2
  have h2 : processDelta s (c0 ++ [(T, e1)]) (T, (⟨img2, some r⟩ : ImageDelta))
      = updateTexEntry (c0 ++ [(T, e1)]) T f2 := by
    simp [processDelta, hl1, hf2]
  have hl2 : lookupTex (updateTexEntry (c0 ++ [(T, e1)]) T f2) T = some (f2 e1) := by
    rw [lookupTex_update_self, hl1]
    rfl
  set f3 : GpuTexture × BindingGroup → GpuTexture × BindingGroup := fun tb =>
      (fillTex tb.1 (set_data ⟨img3, none⟩), tb.2)
    with hf3
  have h3 : processDelta s (updateTexEntry (c0 ++ [(T, e1)]) T f2)
        (T, (⟨img3, none⟩ : ImageDelta))
      = updateTexEntry (updateTexEntry (c0 ++ [(T, e1)]) T f2) T f3 := by
    simp [processDelta, hl2, hf3]
  have hfold : processDeltas s c0 [(T, ⟨img1, none⟩), (T, ⟨img2, some r⟩), (T, ⟨img3, none⟩)]
      = updateTexEntry (updateTexEntry (c0 ++ [(T, e1)]) T f2) T f3 := by
    simp only [processDeltas, List.foldl_cons, List.foldl_nil, h1, h2, h3]
  constructor
  · rw [hfold, countKey_update, countKey_update, countKey_append,
      countKey_zero_of_none c0 T h]
    simp [countKey]
  · rw [hfold, lookupTex_update_self, hl2]
    rfl

/-- C9: a delta carrying a region position for an id that is absent from
the cache takes the creation branch: the position is ignored, and the new
entry's texture has exactly the patch image's dimensions and is filled
entirely with the patch data. -/
theorem c9_patch_absent_creates (s : Sampler) (cache : Cache) (id : TextureId)
    (img : ImageData) (p : ℕ × ℕ) (h : lookupTex cache id = none) :
    processDelta s cache (id, ⟨img, some p⟩) = processDelta s cache (id, ⟨img, none⟩) ∧
    lookupTex (processDelta s cache (id, ⟨img, some p⟩)) id
      = some (⟨img.width, img.height, id, set_data ⟨img, some p⟩⟩, ⟨id, s⟩) := by
  have h1 : processDelta s cache (id, (⟨img, some p⟩ : ImageDelta))
      = cache ++ [(id, fillTex (createTex id img.width img.height) (set_data ⟨img, some p⟩),
          (⟨id, s⟩ : BindingGroup))] := by
    simp [processDelta, h, createTex]
  have h2 : processDelta s cache (id, (⟨img, none⟩ : ImageDelta))
      = cache ++ [(id, fillTex (createTex id img.width img.height) (set_data ⟨img, none⟩),
          (⟨id, s⟩ : BindingGroup))] := by
    simp [processDelta, h, createTex]
  constructor
  · rw [h1, h2]
    rfl
  · rw [h1, lookupTex_append_single _ _ _ h]
    simp [fillTex, createTex]

/-- Sample images and a sample one-entry cache for concrete texture
scenarios. -/
def imgA : ImageData := .color ⟨2, 2, [10, 11, 12, 13]⟩

def imgB : ImageData := .color ⟨1, 1, [99]⟩

def imgC : ImageData := .color ⟨2, 2, [20, 21, 22, 23]⟩

def texA : GpuTexture := ⟨2, 2, 5, [10, 11, 12, 13]⟩

def cacheA : Cache := [(5, texA, ⟨5, sharedSampler⟩)]

/-- Witness for `c5_texture_delta_cases`: creation on an empty cache, a
region update and a full update on `cacheA`, plus an untouched pixel
outside the updated region. -/
theorem c5_texture_delta_cases_witness :
    lookupTex (processDelta sharedSampler [] (5, ⟨imgA, none⟩)) 5
        = some (⟨imgA.width, imgA.height, 5, set_data ⟨imgA, none⟩⟩, ⟨5, sharedSampler⟩) ∧
    lookupTex (processDelta sharedSampler cacheA (5, ⟨imgB, some (1, 0)⟩)) 5
        = some (transferTex texA (set_data ⟨imgB, some (1, 0)⟩) 1 0 imgB.width imgB.height,
            (⟨5, sharedSampler⟩ : BindingGroup)) ∧
    pixelAt (transferTex texA (set_data ⟨imgB, some (1, 0)⟩) 1 0 imgB.width imgB.height) 0 0
        = pixelAt texA 0 0 ∧
    lookupTex (processDelta sharedSampler cacheA (5, ⟨imgB, none⟩)) 5
        = some (fillTex texA (set_data ⟨imgB, none⟩), ⟨5, sharedSampler⟩) :=
  ⟨((c5_texture_delta_cases sharedSampler [] 5 ⟨imgA, none⟩).1 rfl).1,
   ((c5_texture_delta_cases sharedSampler cacheA 5 ⟨imgB, some (1, 0)⟩).2.1
      (texA, ⟨5, sharedSampler⟩) (1, 0) rfl rfl).1,
   ((c5_texture_delta_cases sharedSampler cacheA 5 ⟨imgB, some (1, 0)⟩).2.1
      (texA, ⟨5, sharedSampler⟩) (1, 0) rfl rfl).2.2.2.1 0 0 (by decide) (by decide),
   ((c5_texture_delta_cases sharedSampler cacheA 5 ⟨imgB, none⟩).2.2
      (texA, ⟨5, sharedSampler⟩) rfl rfl).1⟩

/-- Witness for `c6_update_sequence`: create/region-update/full-update of
texture `5` on an empty cache. -/
theorem c6_update_sequence_witness :
    countKey (processDeltas sharedSampler []
        [(5, ⟨imgA, none⟩), (5, ⟨imgB, some (1, 1)⟩), (5, ⟨imgC, none⟩)]) 5 = 1 ∧
    lookupTex (processDeltas sharedSampler []
        [(5, ⟨imgA, none⟩), (5, ⟨imgB, some (1, 1)⟩), (5, ⟨imgC, none⟩)]) 5
      = some (⟨imgA.width, imgA.height, 5, set_data ⟨imgC, none⟩⟩, ⟨5, sharedSampler⟩) :=
  c6_update_sequence sharedSampler [] 5 imgA imgB imgC (1, 1) rfl

/-- Witness for `c9_patch_absent_creates`: a positioned delta for the
absent id `5` on an empty cache. -/
theorem c9_patch_absent_creates_witness :
    processDelta sharedSampler [] (5, ⟨imgB, some (3, 4)⟩)
        = processDelta sharedSampler [] (5, ⟨imgB, none⟩) ∧
    lookupTex (processDelta sharedSampler [] (5, ⟨imgB, some (3, 4)⟩)) 5
      = some (⟨imgB.width, imgB.height, 5, set_data ⟨imgB, some (3, 4)⟩⟩, ⟨5, sharedSampler⟩) :=
  c9_patch_absent_creates sharedSampler [] 5 imgB (3, 4) rfl

/-! ### Render step (lib.rs lines 302-328) -/

/-- The render-pass commands issued by `render`. -/
inductive RenderCmd where
  | setPipeline
  | setVertexBuffer
  | setIndexBuffer
  | setBinding (b : BindingGroup)
  | warnUnknownTexture (id : TextureId)
  | setScissor (x y w h : ℕ)
  | drawIndexed (start stop instStart instStop : ℕ)
deriving DecidableEq

/-- The `for group in &self.groups` loop of `render`: a group with an empty
scissor rect is skipped entirely; otherwise the texture's binding
descriptor is set when the id is cached and a warning is logged when it is
not — and in both cases the scissor rect is set and the indexed draw is
issued (in the source the `set_scissor_rect` and `draw_parrot_indexed`
calls sit after the `if let`/`else`, outside it). -/
def renderGroups (cache : Cache) : List DrawGroup → List RenderCmd
  | [] => []
  | g :: gs =>
    (if g.pixel_rect.isEmpty then []
     else
       (match lookupTex cache g.tex_id with
        | some e => [RenderCmd.setBinding e.2]
        | none => [RenderCmd.warnUnknownTexture g.tex_id]) ++
         [RenderCmd.setScissor g.pixel_rect.x g.pixel_rect.y
            g.pixel_rect.width g.pixel_rect.height,
          RenderCmd.drawIndexed g.start g.stop 0 1]) ++ renderGroups cache gs

/-- The whole render step: bind the pipeline and the shared vertex/index
buffers once, then process the groups in order. -/
def render (groups : List DrawGroup) (cache : Cache) : List RenderCmd :=
  [RenderCmd.setPipeline, RenderCmd.setVertexBuffer, RenderCmd.setIndexBuffer]
    ++ renderGroups cache groups

/-- A group with a non-empty rect referencing texture id `99`, absent from
`cacheA`. -/
def groupUnknown : DrawGroup := ⟨0, 6, 99, ⟨0, 0, 10, 10⟩⟩

/-- A group with a non-empty rect referencing the cached texture id `5`. -/
def groupKnown : DrawGroup := ⟨6, 12, 5, ⟨0, 0, 20, 20⟩⟩

/-- C1 (code bug): the claim says a group with a non-empty scissor rect and
an unknown texture id is skipped with zero draw calls.  The code logs the
warning but still sets the scissor rect and issues the indexed draw for
that group, because the draw sits outside the `if let`/`else`: rendering
`groupUnknown` (texture id `99`, no cache entry) emits exactly one
`drawIndexed 0 6` with no binding set for it, while the remaining group is
still processed and no failure occurs. -/
theorem c1_draw_not_skipped :
    render [groupUnknown, groupKnown] cacheA =
      [.setPipeline, .setVertexBuffer, .setIndexBuffer,
       .warnUnknownTexture 99, .setScissor 0 0 10 10, .drawIndexed 0 6 0 1,
       .setBinding ⟨5, sharedSampler⟩, .setScissor 0 0 20 20, .drawIndexed 6 12 0 1] ∧
    (render [groupUnknown, groupKnown] cacheA).count (.drawIndexed 0 6 0 1) = 1 := by
  decide

/-! ### Frame orchestration (`prepare` as a whole, and the uniform) -/

/-- `ScreenDescriptor` (lib.rs lines 43-49). -/
structure ScreenDescriptor where
  size_in_pixels : ℕ × ℕ
  pixels_per_point : ℚ

/-- `screen_size_in_points` (lib.rs lines 52-57). -/
def screen_size_in_points (sd : ScreenDescriptor) : ℚ × ℚ :=
  ((sd.size_in_pixels.1 : ℚ) / sd.pixels_per_point,
   (sd.size_in_pixels.2 : ℚ) / sd.pixels_per_point)

/-- The uniform rewritten every frame (lib.rs lines 88-94, 290-295):
screen size in points plus zeroed padding. -/
structure Uniform where
  screen_size_in_points : ℚ × ℚ
  padding : ℕ × ℕ

/-- The mutable state of `EguiPipe` relevant to `prepare`/`render`. -/
structure EguiPipeM where
  vertex_buffer : List Vertex
  index_buffer : List ℕ
  egui_texture : Cache
  groups : List DrawGroup
  sampler : Sampler

/-- The whole `prepare` (lib.rs lines 179-296): run the batching loop,
replace the vertex/index buffers and the group list, apply the texture
deltas to the cache, and produce the new uniform value. -/
def prepare (pipe : EguiPipeM) (deltas : List (TextureId × ImageDelta))
    (prims : List ClippedPrimitive) (sd : ScreenDescriptor) : EguiPipeM × Uniform :=
  ({ pipe with
      vertex_buffer := (prepareBatch sd.pixels_per_point sd.size_in_pixels prims).vertices
      index_buffer := (prepareBatch sd.pixels_per_point sd.size_in_pixels prims).indices
      groups := (prepareBatch sd.pixels_per_point sd.size_in_pixels prims).groups
      egui_texture := processDeltas pipe.sampler pipe.egui_texture deltas },
   ⟨screen_size_in_points sd, (0, 0)⟩)

theorem prepare_components (pipe : EguiPipeM) (deltas : List (TextureId × ImageDelta))
    (prims : List ClippedPrimitive) (sd : ScreenDescriptor) :
    (prepare pipe deltas prims sd).1.vertex_buffer
        = (prepareBatch sd.pixels_per_point sd.size_in_pixels prims).vertices ∧
    (prepare pipe deltas prims sd).1.index_buffer
        = (prepareBatch sd.pixels_per_point sd.size_in_pixels prims).indices ∧
    (prepare pipe deltas prims sd).1.groups
        = (prepareBatch sd.pixels_per_point sd.size_in_pixels prims).groups ∧
    (prepare pipe deltas prims sd).1.egui_texture
        = processDeltas pipe.sampler pipe.egui_texture deltas ∧
    (prepare pipe deltas prims sd).2
        = ⟨screen_size_in_points sd, (0, 0)⟩ :=
  ⟨rfl, rfl, rfl, rfl, rfl⟩
